import Mathlib

/-!
Shallow embedding of the Personal-finance-tracker repository
(src/cli.js and src/server.js) and proofs about the claims of its
specification.

JavaScript numbers are modelled as rationals (ℚ); the result of
parseFloat / parseInt on a user-supplied string is modelled as an
Option value, none standing for NaN.  JavaScript strings are Lean
strings (lists of characters).
-/

set_option autoImplicit false

namespace FinanceTracker

/-! ### Data model

A transaction as stored by the CLI (src/cli.js):
`{ primeId: Date.now(), description, amount, type }`.  Both the type
tag and the description are free-form strings, exactly as in the
untyped source. -/

structure CliTx where
  primeId : ℕ
  description : String
  amount : ℚ
  type : String
deriving DecidableEq

/-- A transaction as stored by the HTTP server (src/server.js): the
request body `{description, amount, type, createdAt}` plus the
server-assigned string `id` (`Date.now().toString()`). -/
structure ServerTx where
  id : String
  description : String
  amount : ℚ
  type : String
  createdAt : ℕ
deriving DecidableEq

/-- The partial update body accepted by `PUT /api/transactions/:id`;
a `none` field is absent from the JSON body and therefore not merged
by the object spread `{ ...transactions[index], ...updatedTransaction }`. -/
structure UpdReq where
  description : Option String
  amount : Option ℚ
  type : Option String
deriving DecidableEq

/-! ### Small JavaScript-faithful helpers -/

/-- `Array.prototype.findIndex`, with `none` playing the role of `-1`. -/
def findIdxAux {α : Type} (p : α → Bool) : List α → ℕ → Option ℕ
  | [], _ => none
  | x :: xs, i => if p x then some i else findIdxAux p xs (i + 1)

def findIdxJs {α : Type} (p : α → Bool) (l : List α) : Option ℕ :=
  findIdxAux p l 0

/-- In-place assignment `l[i] = f l[i]` (used for
`transactions[index] = { ...transactions[index], ...updatedTransaction }`). -/
def listModify {α : Type} (f : α → α) : ℕ → List α → List α
  | _, [] => []
  | 0, x :: xs => f x :: xs
  | n + 1, x :: xs => x :: listModify f n xs

/-- `Array.prototype.slice(start)` (one-argument form): a negative
start counts from the end, clamped at 0; a positive start is clamped
at the length. -/
def jsSliceFrom {α : Type} (ts : List α) (k : ℤ) : List α :=
  if k < 0 then ts.drop ((ts.length : ℤ) + k).toNat
  else ts.drop (min k (ts.length : ℤ)).toNat

/-- JavaScript `x < c` where `x` may be NaN (`none`): any comparison
with NaN is false. -/
def jsLtB (x : Option ℤ) (c : ℤ) : Bool :=
  match x with
  | none => false
  | some n => decide (n < c)

/-- JavaScript `x > c` where `x` may be NaN (`none`). -/
def jsGtB (x : Option ℤ) (c : ℤ) : Bool :=
  match x with
  | none => false
  | some n => decide (n > c)

/-! ### Ledger engine (pure functions of src/cli.js) -/

/-- `calculateBalance` (src/cli.js:49-53): a reduce starting at 0 that
adds the amount of an income transaction and subtracts the amount of
any other transaction. -/
def calculateBalance (ts : List CliTx) : ℚ :=
  ts.foldl (fun balance t =>
    if t.type = "income" then balance + t.amount else balance - t.amount) 0

/-- The income total of `viewBalance` (src/cli.js:129):
`filter(t => t.type === 'income').reduce((sum, t) => sum + t.amount, 0)`. -/
def cliIncome (ts : List CliTx) : ℚ :=
  (ts.filter (fun t => t.type == "income")).foldl (fun sum t => sum + t.amount) 0

/-- The expense total of `viewBalance` (src/cli.js:130). -/
def cliExpense (ts : List CliTx) : ℚ :=
  (ts.filter (fun t => t.type == "expense")).foldl (fun sum t => sum + t.amount) 0

/-- `toLowerCase` on a JavaScript string, modelled characterwise. -/
def jsToLower (s : String) : String :=
  ⟨s.data.map Char.toLower⟩

/-- `String.prototype.trim`: drop leading and trailing whitespace. -/
def jsTrim (s : String) : String :=
  ⟨((s.data.dropWhile Char.isWhitespace).reverse.dropWhile Char.isWhitespace).reverse⟩

/-- Whether the first character list is a leading segment of the second. -/
def isPrefixSeq {α : Type} [DecidableEq α] : List α → List α → Bool
  | [], _ => true
  | _ :: _, [] => false
  | a :: as, b :: bs => if a = b then isPrefixSeq as bs else false

/-- `String.prototype.includes`, on the character lists: the needle
occurs contiguously somewhere in the haystack. -/
def isSubSeq {α : Type} [DecidableEq α] (needle : List α) : List α → Bool
  | [] => isPrefixSeq needle []
  | b :: bs => isPrefixSeq needle (b :: bs) || isSubSeq needle bs

/-- `searchTransactions` (src/cli.js:140-142): keep the transactions
whose lowercased description contains the lowercased query as a
substring (`String.prototype.includes`). -/
def searchTransactions (ts : List CliTx) (query : String) : List CliTx :=
  ts.filter (fun t => isSubSeq (jsToLower query).data (jsToLower t.description).data)

/-! ### Mutation operations of src/cli.js -/

/-- Outcome of the CLI `addTransaction` flow: either the validation
message `Invalid amount. Please enter a positive number.` (nothing is
loaded or saved) or the saved list. -/
inductive CliAddResult where
  | invalidAmount
  | saved (ts : List CliTx)
deriving DecidableEq

/-- `addTransaction` (src/cli.js:98-121).  The `parseFloat` of the
amount answer is modelled by its result (`none` for NaN).  On a NaN,
zero or negative amount the handler prints an error and returns to
the menu before loading the file; otherwise it appends
`{primeId: Date.now(), description: description.trim(), amount, type}`
and saves. -/
def addTransactionCli (ty : String) (description : String) (amount : Option ℚ)
    (now : ℕ) (ts : List CliTx) : CliAddResult :=
  match amount with
  | none => .invalidAmount
  | some a =>
      if a ≤ 0 then .invalidAmount
      else .saved (ts ++ [⟨now, jsTrim description, a, ty⟩])

/-- Outcome of the CLI `deleteTransaction` flow. `crashed` marks the
path where `splice` removed nothing and `deleted.description` throws
(possible only on an empty list). -/
inductive CliDelResult where
  | cancelled
  | invalid
  | deleted (removed : CliTx) (rest : List CliTx)
  | crashed
deriving DecidableEq

/-- `deleteTransaction` (src/cli.js:159-176).  The `parseInt` of the
answer is modelled by its result (`none` for NaN).  `id === 0` cancels;
the bounds check `id < 1 || id > transactions.length` is evaluated
with JavaScript NaN comparison semantics (both false for NaN); then
`transactions.splice(id - 1, 1)` runs, `ToIntegerOrInfinity` turning a
NaN start index into 0. -/
def deleteTransactionCli (ts : List CliTx) (pid : Option ℤ) : CliDelResult :=
  if pid = some 0 then .cancelled
  else if jsLtB pid 1 || jsGtB pid (ts.length : ℤ) then .invalid
  else
    let start : ℕ :=
      match pid with
      | none => 0
      | some n => (n - 1).toNat
    match ts.get? start with
    | some t => .deleted t (ts.eraseIdx start)
    | none => .crashed

/-! ### HTTP server operations (src/server.js) -/

/-- `POST /api/transactions` (src/server.js:18-23): stamp
`id = Date.now().toString()` on the body and push it.  The decimal
rendering of the timestamp is `natToString` (defined below with the
CSV machinery); to keep the definition order simple the id here is
rendered by the same digit algorithm, `natStr`. -/
def natDigitsAux : ℕ → ℕ → List ℕ
  | 0, _ => []
  | fuel + 1, n => if n = 0 then [] else n % 10 :: natDigitsAux fuel (n / 10)

/-- Little-endian base-10 digits of a natural number. -/
def natDigits (n : ℕ) : List ℕ := natDigitsAux n n

/-- The character of a decimal digit. -/
def digitChar (d : ℕ) : Char := Char.ofNat (48 + d)

/-- Decimal rendering of a natural number (JavaScript
`Number.prototype.toString` for a nonnegative integer). -/
def natStr (n : ℕ) : String :=
  if n = 0 then "0" else ⟨(natDigits n).reverse.map digitChar⟩

/-- `POST /api/transactions`: the new snapshot after an add with the
given body fields at time `now` (ms since the epoch). -/
def addTransactionServer (ts : List ServerTx) (description : String) (amount : ℚ)
    (ty : String) (now : ℕ) : List ServerTx :=
  ts ++ [⟨natStr now, description, amount, ty, now⟩]

/-- The object spread `{ ...transactions[index], ...updatedTransaction }`
for a body holding only description/amount/type keys: a present field
overwrites, an absent one keeps the stored value; `id` and `createdAt`
are not keys of the body and survive. -/
def mergeTx (t : ServerTx) (u : UpdReq) : ServerTx :=
  ⟨t.id, u.description.getD t.description, u.amount.getD t.amount,
   u.type.getD t.type, t.createdAt⟩

/-- Response of `PUT /api/transactions/:id`: 200 with the updated
record, or 404. -/
inductive UpdResp where
  | ok (t : Option ServerTx)
  | notFound
deriving DecidableEq

/-- `PUT /api/transactions/:id` (src/server.js:25-36): findIndex by id;
on a hit, assign the spread-merged record and respond with it; no
field of the body is validated. -/
def updateTransactionServer (ts : List ServerTx) (idStr : String) (u : UpdReq) :
    UpdResp × List ServerTx :=
  match findIdxJs (fun t => t.id == idStr) ts with
  | none => (.notFound, ts)
  | some i =>
      let ts' := listModify (fun t => mergeTx t u) i ts
      (.ok (ts'.get? i), ts')

/-- Response of `DELETE /api/transactions/:id`: an HTTP status and the
transaction carried by the body (the 204 success response has no body;
the 404 response body is an error object, not a transaction). -/
structure DelResp where
  status : ℕ
  body : Option ServerTx
deriving DecidableEq

/-- `DELETE /api/transactions/:id` (src/server.js:38-48): findIndex by
id; on a hit, `splice(index, 1)` and a bodyless 204; otherwise 404. -/
def deleteTransactionServer (ts : List ServerTx) (idStr : String) :
    List ServerTx × DelResp :=
  match findIdxJs (fun t => t.id == idStr) ts with
  | none => (ts, ⟨404, none⟩)
  | some i => (ts.eraseIdx i, ⟨204, none⟩)

/-- `GET /api/balance` (src/server.js:51-58): forEach accumulation,
income adds, everything else subtracts. -/
def serverBalance (ts : List ServerTx) : ℚ :=
  ts.foldl (fun balance t =>
    if t.type = "income" then balance + t.amount else balance - t.amount) 0

/-- The `totalIncome` of `GET /api/summary` (src/server.js:61). -/
def totalIncome (ts : List ServerTx) : ℚ :=
  (ts.filter (fun t => t.type == "income")).foldl (fun sum t => sum + t.amount) 0

/-- The `totalExpense` of `GET /api/summary` (src/server.js:62). -/
def totalExpense (ts : List ServerTx) : ℚ :=
  (ts.filter (fun t => t.type == "expense")).foldl (fun sum t => sum + t.amount) 0

/-- The JSON body of `GET /api/summary` (src/server.js:60-72). -/
structure Summary where
  totalIncome : ℚ
  totalExpense : ℚ
  balance : ℚ
  transactionCount : ℕ
  currency : String
deriving DecidableEq

def summary (ts : List ServerTx) : Summary :=
  ⟨totalIncome ts, totalExpense ts, totalIncome ts - totalExpense ts,
   ts.length, "USD"⟩

/-- `GET /api/transactions/recent` (src/server.js:74-78):
`const limit = parseInt(req.query.limit) || 10` (NaN and 0 are falsy,
a negative number is truthy) followed by `transactions.slice(-limit)`.
The `parseInt` of the query parameter is modelled by its result
(`none` for a missing or non-numeric parameter). -/
def recentTransactions (ts : List ServerTx) (q : Option ℤ) : List ServerTx :=
  let limit : ℤ :=
    match q with
    | none => 10
    | some v => if v = 0 then 10 else v
  jsSliceFrom ts (-limit)

/-! ### CSV export (src/cli.js:179-195) and a parser for the round trip

The amount is interpolated with `${t.amount}`, JavaScript number
rendering: a sign, the integer part, and — when the fractional part is
non-zero — a dot and the fractional digits.  Every JavaScript number
has a terminating decimal expansion (it is a binary fraction); in the
rational model the expansion is computed by long division under a
fuel bound, and the round-trip theorem assumes the expansion
terminates (`terminatesB`). -/

/-- The numeric value of a decimal-digit character. -/
def charDigit (c : Char) : ℕ := c.toNat - 48

/-- Whether a character is one of the decimal digits `0`-`9`. -/
def isDigitCh (c : Char) : Bool := 48 ≤ c.toNat && c.toNat ≤ 57

/-- The value of a little-endian digit list (inverse of `natDigits`). -/
def natFromDigits (l : List ℕ) : ℕ := l.foldr (fun d acc => d + 10 * acc) 0

/-- Parse the decimal digits of a natural number. -/
def parseNatChars (l : List Char) : ℕ :=
  natFromDigits ((l.map charDigit).reverse)

/-- Long division: the decimal digits of `num / den` (`num < den`),
`none` when the expansion does not terminate within the fuel. -/
def fracDigitsAux : ℕ → ℕ → ℕ → Option (List ℕ)
  | 0, num, _ => if num = 0 then some [] else none
  | fuel + 1, num, den =>
      if num = 0 then some []
      else (fracDigitsAux fuel (num * 10 % den) den).map
        (fun ds => num * 10 / den :: ds)

/-- Fuel for the long division; any terminating expansion a JavaScript
number can produce fits well inside it. -/
def csvFuel : ℕ := 1200

/-- Whether the fractional part of a rational has a terminating
decimal expansion (within the fuel). -/
def terminatesB (q : ℚ) : Bool :=
  (fracDigitsAux csvFuel (q.num.natAbs % q.den) q.den).isSome

/-- Decimal rendering of a nonnegative rational, JavaScript style:
no fractional part prints as a plain integer.  (On a non-terminating
expansion — impossible for an actual JavaScript number — the
fractional part is dropped; the round-trip theorem excludes that case
via `terminatesB`.) -/
def ratStrNN (q : ℚ) : String :=
  match fracDigitsAux csvFuel (q.num.toNat % q.den) q.den with
  | some [] => natStr (q.num.toNat / q.den)
  | some ds => natStr (q.num.toNat / q.den) ++ "." ++ ⟨ds.map digitChar⟩
  | none => natStr (q.num.toNat / q.den)

/-- Decimal rendering of a rational (the `${t.amount}` interpolation). -/
def ratStr (q : ℚ) : String :=
  if q < 0 then "-" ++ ratStrNN (-q) else ratStrNN q

/-- The calendar-date field derived from `primeId`
(`new Date(t.primeId).toLocaleDateString()`).  The exact text is
environment- and locale-dependent; it is modelled as the decimal day
number since the epoch — like every common locale rendering it is
lossy to the day and contains neither comma, quote nor newline, which
is all the round-trip claim uses. -/
def dateStr (ms : ℕ) : String := natStr (ms / 86400000)

/-- One CSV row (src/cli.js:188):
date `,` `"` description `"` `,` amount `,` type. -/
def rowChars (t : CliTx) : List Char :=
  (dateStr t.primeId).data ++
    ',' :: ('"' :: (t.description.data ++
      ('"' :: (',' :: ((ratStr t.amount).data ++
        (',' :: t.type.data))))))

/-- `rows.join('\n')`. -/
def joinRows : List CliTx → List Char
  | [] => []
  | [t] => rowChars t
  | t :: ts => rowChars t ++ '\n' :: joinRows ts

/-- The CSV header characters. -/
def headerChars : List Char := "Date,Description,Amount,Type".data

/-- `exportToCSV` content (src/cli.js:186-189):
`'Date,Description,Amount,Type\n' + transactions.map(row).join('\n')`. -/
def toCSV (ts : List CliTx) : String :=
  ⟨headerChars ++ '\n' :: joinRows ts⟩

/-! #### A CSV parser for the round-trip claim -/

/-- Split a character list at every occurrence of a separator. -/
def splitChar (c : Char) : List Char → List (List Char)
  | [] => [[]]
  | x :: xs =>
      if x = c then [] :: splitChar c xs
      else
        match splitChar c xs with
        | [] => [[x]]
        | y :: ys => (x :: y) :: ys

/-- Split at the first occurrence of a character: the part before it
and the part after it, or `none` when the character does not occur. -/
def breakAtChar (c : Char) : List Char → Option (List Char × List Char)
  | [] => none
  | x :: xs =>
      if x = c then some ([], xs)
      else (breakAtChar c xs).map (fun p => (x :: p.1, p.2))

/-- The value of a fractional-digit list: `[d1, d2, ...]` stands for
`0.d1d2...`. -/
def fracVal (ds : List ℕ) : ℚ :=
  ds.foldr (fun d acc => ((d : ℚ) + acc) / 10) 0

/-- Parse an unsigned decimal numeral, with an optional fractional
part after a dot. -/
def parseRatNN (l : List Char) : Option ℚ :=
  match breakAtChar '.' l with
  | none =>
      if !l.isEmpty && l.all isDigitCh then some (parseNatChars l : ℚ) else none
  | some (ip, fp) =>
      if !ip.isEmpty && !fp.isEmpty && ip.all isDigitCh && fp.all isDigitCh then
        some ((parseNatChars ip : ℚ) + fracVal (fp.map charDigit))
      else none

/-- Parse a decimal numeral with an optional leading minus sign. -/
def parseRatChars (l : List Char) : Option ℚ :=
  match l with
  | [] => none
  | c :: rest =>
      if c = '-' then (parseRatNN rest).map (fun q => -q)
      else parseRatNN (c :: rest)

/-- Parse one CSV row produced by `toCSV`: date up to the first comma,
a double-quoted description, the amount up to the next comma, and the
type as the remainder of the line.  Returns the (description, amount,
type) triple. -/
def parseRow (l : List Char) : Option (String × ℚ × String) :=
  match breakAtChar ',' l with
  | none => none
  | some (_date, r1) =>
      match r1 with
      | [] => none
      | c1 :: r2 =>
          if c1 = '"' then
            match breakAtChar '"' r2 with
            | none => none
            | some (desc, r3) =>
                match r3 with
                | [] => none
                | c2 :: r4 =>
                    if c2 = ',' then
                      match breakAtChar ',' r4 with
                      | none => none
                      | some (amt, ty) =>
                          match parseRatChars amt with
                          | none => none
                          | some q => some (⟨desc⟩, q, ⟨ty⟩)
                    else none
          else none

/-- Parse every row. -/
def parseRows : List (List Char) → Option (List (String × ℚ × String))
  | [] => some []
  | r :: rs =>
      match parseRow r, parseRows rs with
      | some x, some xs => some (x :: xs)
      | _, _ => none

/-- Parse a whole CSV text: the header line followed by one row per
transaction. -/
def parseCSV (s : String) : Option (List (String × ℚ × String)) :=
  match splitChar '\n' s.data with
  | [] => none
  | header :: rows =>
      if header = headerChars then parseRows rows else none

/-! ### Operation sequences against the server store (for the id
uniqueness claim) -/

/-- One request against the in-memory store of src/server.js.  An add
carries the wall-clock time (`Date.now()`, ms) at which it executes. -/
inductive Op where
  | add (description : String) (amount : ℚ) (ty : String) (now : ℕ)
  | update (idStr : String) (u : UpdReq)
  | del (idStr : String)

/-- Apply one request to the store snapshot. -/
def stepOp (ts : List ServerTx) : Op → List ServerTx
  | .add d a ty now => addTransactionServer ts d a ty now
  | .update idStr u => (updateTransactionServer ts idStr u).2
  | .del idStr => (deleteTransactionServer ts idStr).1

/-- The store contents after a request sequence, starting empty. -/
def applyOps (ops : List Op) : List ServerTx :=
  ops.foldl stepOp []

/-- The `Date.now()` values of the add requests of a sequence, in
order. -/
def addTimes (ops : List Op) : List ℕ :=
  ops.filterMap (fun o =>
    match o with
    | .add _ _ _ n => some n
    | _ => none)

/-- The ids of a snapshot, in order. -/
def txIds (ts : List ServerTx) : List String :=
  ts.map (fun t => t.id)

/-- A sample request sequence: two adds at distinct times, a delete of
the first id, and a later add. -/
def exOps : List Op :=
  [.add "a" 5 "income" 100, .add "b" 3 "expense" 200,
   .del "100", .add "c" 7 "income" 300]

/-! ## Helper lemmas -/

/-- A fold whose step is additive in the accumulator can be started at
0 and shifted. -/
theorem foldl_step_shift {α : Type} (g : ℚ → α → ℚ)
    (hg : ∀ b x, g b x = b + g 0 x) (l : List α) (b : ℚ) :
    l.foldl g b = b + l.foldl g 0 := by
  induction l generalizing b with
  | nil => simp
  | cons x l ih =>
      simp only [List.foldl_cons]
      rw [ih (g b x), ih (g 0 x), hg b x]
      ring

theorem serverBalance_cons (t : ServerTx) (l : List ServerTx) :
    serverBalance (t :: l) =
      (if t.type = "income" then t.amount else -t.amount) + serverBalance l := by
  have hg : ∀ (b : ℚ) (x : ServerTx),
      (if x.type = "income" then b + x.amount else b - x.amount)
        = b + (if x.type = "income" then (0:ℚ) + x.amount else 0 - x.amount) := by
    intro b x
    by_cases h : x.type = "income" <;> simp [h] <;> ring
  unfold serverBalance
  rw [List.foldl_cons, foldl_step_shift _ hg]
  by_cases h : t.type = "income" <;> simp [h]

theorem calculateBalance_cons (t : CliTx) (l : List CliTx) :
    calculateBalance (t :: l) =
      (if t.type = "income" then t.amount else -t.amount) + calculateBalance l := by
  have hg : ∀ (b : ℚ) (x : CliTx),
      (if x.type = "income" then b + x.amount else b - x.amount)
        = b + (if x.type = "income" then (0:ℚ) + x.amount else 0 - x.amount) := by
    intro b x
    by_cases h : x.type = "income" <;> simp [h] <;> ring
  unfold calculateBalance
  rw [List.foldl_cons, foldl_step_shift _ hg]
  by_cases h : t.type = "income" <;> simp [h]

theorem sum_filter_cons {α : Type} (p : α → Bool) (f : α → ℚ) (t : α) (l : List α) :
    ((t :: l).filter p).foldl (fun s x => s + f x) 0 =
      (if p t then f t else 0) + (l.filter p).foldl (fun s x => s + f x) 0 := by
  have hg : ∀ (b : ℚ) (x : α), b + f x = b + (0 + f x) := by intro b x; ring
  rw [List.filter_cons]
  by_cases h : p t
  · simp only [h, if_true]
    rw [List.foldl_cons, foldl_step_shift _ hg]
    ring
  · simp [h]

theorem totalIncome_cons (t : ServerTx) (l : List ServerTx) :
    totalIncome (t :: l) =
      (if t.type = "income" then t.amount else 0) + totalIncome l := by
  unfold totalIncome
  rw [sum_filter_cons]
  by_cases h : t.type = "income" <;> simp [h]

theorem totalExpense_cons (t : ServerTx) (l : List ServerTx) :
    totalExpense (t :: l) =
      (if t.type = "expense" then t.amount else 0) + totalExpense l := by
  unfold totalExpense
  rw [sum_filter_cons]
  by_cases h : t.type = "expense" <;> simp [h]

theorem cliIncome_cons (t : CliTx) (l : List CliTx) :
    cliIncome (t :: l) = (if t.type = "income" then t.amount else 0) + cliIncome l := by
  unfold cliIncome
  rw [sum_filter_cons]
  by_cases h : t.type = "income" <;> simp [h]

theorem cliExpense_cons (t : CliTx) (l : List CliTx) :
    cliExpense (t :: l) = (if t.type = "expense" then t.amount else 0) + cliExpense l := by
  unfold cliExpense
  rw [sum_filter_cons]
  by_cases h : t.type = "expense" <;> simp [h]

theorem serverBalance_eq_totals (ts : List ServerTx)
    (h : ∀ t ∈ ts, t.type = "income" ∨ t.type = "expense") :
    serverBalance ts = totalIncome ts - totalExpense ts := by
  induction ts with
  | nil => simp [serverBalance, totalIncome, totalExpense]
  | cons t l ih =>
      have ht := h t (by simp)
      have ih' := ih (fun x hx => h x (by simp [hx]))
      rw [serverBalance_cons, totalIncome_cons, totalExpense_cons, ih']
      have e1 : ("income" : String) ≠ "expense" := by decide
      have e2 : ("expense" : String) ≠ "income" := by decide
      rcases ht with h1 | h1
      · rw [h1, if_pos rfl, if_pos rfl, if_neg e1]
        ring
      · rw [h1, if_neg e2, if_neg e2, if_pos rfl]
        ring

theorem calculateBalance_eq_totals (us : List CliTx)
    (h : ∀ u ∈ us, u.type = "income" ∨ u.type = "expense") :
    calculateBalance us = cliIncome us - cliExpense us := by
  induction us with
  | nil => simp [calculateBalance, cliIncome, cliExpense]
  | cons t l ih =>
      have ht := h t (by simp)
      have ih' := ih (fun x hx => h x (by simp [hx]))
      rw [calculateBalance_cons, cliIncome_cons, cliExpense_cons, ih']
      have e1 : ("income" : String) ≠ "expense" := by decide
      have e2 : ("expense" : String) ≠ "income" := by decide
      rcases ht with h1 | h1
      · rw [h1, if_pos rfl, if_pos rfl, if_neg e1]
        ring
      · rw [h1, if_neg e2, if_neg e2, if_pos rfl]
        ring

/-! #### findIndex and element assignment -/

theorem findIdxAux_shift {α : Type} (p : α → Bool) (l : List α) :
    ∀ i : ℕ, findIdxAux p l i = (findIdxAux p l 0).map (fun j => j + i) := by
  induction l with
  | nil => intro i; rfl
  | cons x xs ih =>
      intro i
      by_cases h : p x
      · simp [findIdxAux, h]
      · simp only [findIdxAux, h, if_false, Bool.false_eq_true]
        rw [ih (i + 1), ih 1, Option.map_map]
        apply congrArg (fun f => Option.map f (findIdxAux p xs 0))
        funext j
        simp
        omega

theorem findIdxJs_cons {α : Type} (p : α → Bool) (x : α) (xs : List α) :
    findIdxJs p (x :: xs) =
      if p x then some 0 else (findIdxJs p xs).map (fun j => j + 1) := by
  by_cases h : p x
  · simp [findIdxJs, findIdxAux, h]
  · simp only [findIdxJs, findIdxAux, h, if_false, Bool.false_eq_true]
    exact findIdxAux_shift p xs 1

theorem findIdxJs_eq_none_iff {α : Type} (p : α → Bool) (l : List α) :
    findIdxJs p l = none ↔ ∀ x ∈ l, ¬ p x := by
  induction l with
  | nil => simp [findIdxJs, findIdxAux]
  | cons x xs ih =>
      rw [findIdxJs_cons]
      by_cases h : p x
      · simp [h]
      · simp only [h, if_false, Bool.false_eq_true, Option.map_eq_none']
        rw [ih]
        simp [h]

theorem findIdxJs_eq_some {α : Type} (p : α → Bool) (l : List α) (i : ℕ)
    (h : findIdxJs p l = some i) : ∃ t, l.get? i = some t ∧ p t := by
  induction l generalizing i with
  | nil => simp [findIdxJs, findIdxAux] at h
  | cons x xs ih =>
      rw [findIdxJs_cons] at h
      by_cases hx : p x
      · rw [if_pos hx] at h
        cases h
        exact ⟨x, rfl, hx⟩
      · rw [if_neg hx] at h
        rcases Option.map_eq_some'.1 h with ⟨j, hj, rfl⟩
        rcases ih j hj with ⟨t, ht, hp⟩
        exact ⟨t, ht, hp⟩

theorem findIdxJs_isSome_of_mem {α : Type} (p : α → Bool) (l : List α)
    (x : α) (hx : x ∈ l) (hp : p x) : ∃ i, findIdxJs p l = some i := by
  cases hfind : findIdxJs p l with
  | none => exact absurd hp ((findIdxJs_eq_none_iff p l).1 hfind x hx)
  | some i => exact ⟨i, rfl⟩

theorem listModify_get?_eq {α : Type} (f : α → α) (i : ℕ) (l : List α) :
    (listModify f i l).get? i = (l.get? i).map f := by
  induction l generalizing i with
  | nil => simp [listModify]
  | cons x xs ih =>
      cases i with
      | zero => simp [listModify]
      | succ n => simpa [listModify] using ih n

theorem listModify_get?_ne {α : Type} (f : α → α) (i j : ℕ) (l : List α)
    (h : j ≠ i) : (listModify f i l).get? j = l.get? j := by
  induction l generalizing i j with
  | nil => simp [listModify]
  | cons x xs ih =>
      cases i with
      | zero =>
          cases j with
          | zero => exact absurd rfl h
          | succ m => simp [listModify]
      | succ n =>
          cases j with
          | zero => simp [listModify]
          | succ m => simpa [listModify] using ih n m (by omega)

/-! #### Decimal digits and numerals -/

theorem charDigit_digitChar (d : ℕ) (h : d < 10) : charDigit (digitChar d) = d := by
  interval_cases d <;> decide

theorem isDigitCh_digitChar (d : ℕ) (h : d < 10) : isDigitCh (digitChar d) = true := by
  interval_cases d <;> decide

/-- A decimal digit character is none of the CSV delimiters, the dot
or the minus sign. -/
theorem isDigitCh_ne (c : Char) (h : isDigitCh c = true) :
    c ≠ ',' ∧ c ≠ '"' ∧ c ≠ '\n' ∧ c ≠ '.' ∧ c ≠ '-' := by
  refine ⟨?_, ?_, ?_, ?_, ?_⟩ <;>
    · rintro rfl
      revert h
      decide

theorem natDigitsAux_lt10 (fuel n : ℕ) : ∀ d ∈ natDigitsAux fuel n, d < 10 := by
  induction fuel generalizing n with
  | zero => simp [natDigitsAux]
  | succ fuel ih =>
      intro d hd
      rw [natDigitsAux] at hd
      by_cases h : n = 0
      · simp [h] at hd
      · rw [if_neg h] at hd
        rcases List.mem_cons.1 hd with rfl | hmem
        · exact Nat.mod_lt n (by norm_num)
        · exact ih (n / 10) d hmem

theorem natFromDigits_natDigitsAux (fuel n : ℕ) (h : n ≤ fuel) :
    natFromDigits (natDigitsAux fuel n) = n := by
  induction fuel generalizing n with
  | zero =>
      have : n = 0 := by omega
      subst this
      rfl
  | succ fuel ih =>
      rw [natDigitsAux]
      by_cases h0 : n = 0
      · subst h0
        rfl
      · rw [if_neg h0]
        have hdiv : n / 10 ≤ fuel := by
          have := Nat.div_lt_self (Nat.pos_of_ne_zero h0) (by norm_num : 1 < 10)
          omega
        show n % 10 + 10 * natFromDigits (natDigitsAux fuel (n / 10)) = n
        rw [ih (n / 10) hdiv]
        exact Nat.mod_add_div n 10

theorem natFromDigits_natDigits (n : ℕ) : natFromDigits (natDigits n) = n :=
  natFromDigits_natDigitsAux n n (le_refl n)

theorem natDigits_lt10 (n : ℕ) : ∀ d ∈ natDigits n, d < 10 :=
  natDigitsAux_lt10 n n

theorem natStr_data (n : ℕ) :
    (natStr n).data = if n = 0 then ['0'] else (natDigits n).reverse.map digitChar := by
  by_cases h : n = 0 <;> simp [natStr, h]

theorem natStr_all_digits (n : ℕ) : ∀ c ∈ (natStr n).data, isDigitCh c = true := by
  rw [natStr_data]
  by_cases h : n = 0
  · rw [if_pos h]
    intro c hc
    rcases List.mem_singleton.1 hc with rfl
    decide
  · rw [if_neg h]
    intro c hc
    rcases List.mem_map.1 hc with ⟨d, hd, rfl⟩
    exact isDigitCh_digitChar d (natDigits_lt10 n d (List.mem_reverse.1 hd))

theorem natStr_ne_nil (n : ℕ) : (natStr n).data ≠ [] := by
  rw [natStr_data]
  by_cases h : n = 0
  · simp [h]
  · rw [if_neg h]
    intro habs
    have h1 : natDigits n ≠ [] := by
      intro hnil
      apply h
      have := natFromDigits_natDigits n
      rw [hnil] at this
      exact this.symm
    simp at habs
    exact h1 habs

theorem parseNatChars_natStr (n : ℕ) : parseNatChars (natStr n).data = n := by
  rw [natStr_data]
  by_cases h : n = 0
  · simp [h, parseNatChars, natFromDigits, charDigit]
  · rw [if_neg h]
    rw [parseNatChars]
    have hmap : ((natDigits n).reverse.map digitChar).map charDigit
        = (natDigits n).reverse := by
      rw [List.map_map]
      have : ∀ d ∈ (natDigits n).reverse, (charDigit ∘ digitChar) d = id d := by
        intro d hd
        exact charDigit_digitChar d (natDigits_lt10 n d (List.mem_reverse.1 hd))
      rw [List.map_congr_left this, List.map_id]
    rw [hmap, List.reverse_reverse]
    exact natFromDigits_natDigits n

/-- Decimal rendering of naturals is injective (two equal id strings
come from the same timestamp). -/
theorem natStr_injective (a b : ℕ) (h : natStr a = natStr b) : a = b := by
  have := congrArg String.data h
  calc a = parseNatChars (natStr a).data := (parseNatChars_natStr a).symm
    _ = parseNatChars (natStr b).data := by rw [this]
    _ = b := parseNatChars_natStr b

/-! #### Strings, splitting and breaking -/

theorem string_data_append (a b : String) : (a ++ b).data = a.data ++ b.data := by
  cases a
  cases b
  rfl

theorem string_mk_data (s : String) : String.mk s.data = s := rfl

theorem breakAtChar_none (c : Char) (l : List Char) (h : c ∉ l) :
    breakAtChar c l = none := by
  induction l with
  | nil => rfl
  | cons x xs ih =>
      rw [breakAtChar]
      rw [if_neg (by simp at h; exact fun e => h.1 e.symm)]
      rw [ih (by simp at h; exact h.2)]
      rfl

theorem breakAtChar_append (c : Char) (a b : List Char) (h : c ∉ a) :
    breakAtChar c (a ++ c :: b) = some (a, b) := by
  induction a with
  | nil => simp [breakAtChar]
  | cons x xs ih =>
      rw [List.cons_append, breakAtChar]
      rw [if_neg (by simp at h; exact fun e => h.1 e.symm)]
      rw [ih (by simp at h; exact h.2)]
      rfl

theorem splitChar_not_mem (c : Char) (a : List Char) (h : c ∉ a) :
    splitChar c a = [a] := by
  induction a with
  | nil => rfl
  | cons x xs ih =>
      rw [splitChar]
      rw [if_neg (by simp at h; exact fun e => h.1 e.symm)]
      rw [ih (by simp at h; exact h.2)]

theorem splitChar_ne_nil (c : Char) (a : List Char) : splitChar c a ≠ [] := by
  induction a with
  | nil => simp [splitChar]
  | cons x xs ih =>
      rw [splitChar]
      by_cases h : x = c
      · simp [h]
      · rw [if_neg h]
        cases hs : splitChar c xs with
        | nil => exact absurd hs ih
        | cons y ys => simp

theorem splitChar_append (c : Char) (a b : List Char) (h : c ∉ a) :
    splitChar c (a ++ c :: b) = a :: splitChar c b := by
  induction a with
  | nil => simp [splitChar]
  | cons x xs ih =>
      rw [List.cons_append, splitChar]
      rw [if_neg (by simp at h; exact fun e => h.1 e.symm)]
      rw [ih (by simp at h; exact h.2)]

/-! #### The long division and the decimal value -/

theorem fracVal_nil : fracVal [] = 0 := rfl

theorem fracVal_cons (d : ℕ) (ds : List ℕ) :
    fracVal (d :: ds) = ((d : ℚ) + fracVal ds) / 10 := rfl

theorem fracDigitsAux_zero (fuel den : ℕ) : fracDigitsAux fuel 0 den = some [] := by
  cases fuel <;> simp [fracDigitsAux]

theorem fracDigitsAux_ne_nil (fuel num den : ℕ) (ds : List ℕ) (h0 : num ≠ 0)
    (h : fracDigitsAux fuel num den = some ds) : ds ≠ [] := by
  cases fuel with
  | zero =>
      rw [fracDigitsAux, if_neg h0] at h
      cases h
  | succ fuel =>
      rw [fracDigitsAux, if_neg h0] at h
      rcases Option.map_eq_some'.1 h with ⟨ds', _, rfl⟩
      simp

theorem fracDigitsAux_lt10 (fuel : ℕ) : ∀ (num den : ℕ) (ds : List ℕ),
    0 < den → num < den → fracDigitsAux fuel num den = some ds →
    ∀ d ∈ ds, d < 10 := by
  induction fuel with
  | zero =>
      intro num den ds hden hlt h
      rw [fracDigitsAux] at h
      by_cases h0 : num = 0
      · rw [if_pos h0] at h
        cases h
        simp
      · rw [if_neg h0] at h
        cases h
  | succ fuel ih =>
      intro num den ds hden hlt h
      rw [fracDigitsAux] at h
      by_cases h0 : num = 0
      · rw [if_pos h0] at h
        cases h
        simp
      · rw [if_neg h0] at h
        rcases Option.map_eq_some'.1 h with ⟨ds', hds', rfl⟩
        intro d hd
        rcases List.mem_cons.1 hd with rfl | hmem
        · exact (Nat.div_lt_iff_lt_mul hden).2 (by omega)
        · exact ih (num * 10 % den) den ds' hden (Nat.mod_lt _ hden) hds' d hmem

theorem fracDigitsAux_val (fuel : ℕ) : ∀ (num den : ℕ) (ds : List ℕ),
    den ≠ 0 → fracDigitsAux fuel num den = some ds →
    fracVal ds = (num : ℚ) / den := by
  induction fuel with
  | zero =>
      intro num den ds hden h
      rw [fracDigitsAux] at h
      by_cases h0 : num = 0
      · rw [if_pos h0] at h
        cases h
        subst h0
        simp [fracVal_nil]
      · rw [if_neg h0] at h
        cases h
  | succ fuel ih =>
      intro num den ds hden h
      rw [fracDigitsAux] at h
      by_cases h0 : num = 0
      · rw [if_pos h0] at h
        cases h
        subst h0
        simp [fracVal_nil]
      · rw [if_neg h0] at h
        rcases Option.map_eq_some'.1 h with ⟨ds', hds', rfl⟩
        have hval := ih (num * 10 % den) den ds' hden hds'
        have hdenQ : (den : ℚ) ≠ 0 := Nat.cast_ne_zero.2 hden
        have hdm : ((den : ℚ)) * ((num * 10 / den : ℕ) : ℚ) + ((num * 10 % den : ℕ) : ℚ)
            = (num : ℚ) * 10 := by
          have hnat := Nat.div_add_mod (num * 10) den
          have := congrArg (fun k : ℕ => (k : ℚ)) hnat
          push_cast at this
          linarith [this]
        have hgoal : ((num * 10 / den : ℕ) : ℚ) + ((num * 10 % den : ℕ) : ℚ) / den
            = (num : ℚ) * 10 / den := by
          field_simp
          linarith [hdm]
        rw [fracVal_cons, hval, hgoal, div_div]
        rw [mul_comm (den : ℚ) 10, ← div_div]
        rw [mul_div_assoc, div_self (by norm_num : (10 : ℚ) ≠ 0), mul_one]

/-! #### The amount rendering and its parse -/

theorem digits_no_special (l : List Char) (h : ∀ c ∈ l, isDigitCh c = true) :
    ',' ∉ l ∧ '"' ∉ l ∧ '\n' ∉ l ∧ '.' ∉ l ∧ '-' ∉ l := by
  refine ⟨fun hm => (isDigitCh_ne _ (h _ hm)).1 rfl,
    fun hm => (isDigitCh_ne _ (h _ hm)).2.1 rfl,
    fun hm => (isDigitCh_ne _ (h _ hm)).2.2.1 rfl,
    fun hm => (isDigitCh_ne _ (h _ hm)).2.2.2.1 rfl,
    fun hm => (isDigitCh_ne _ (h _ hm)).2.2.2.2 rfl⟩

theorem terminates_toNat (q : ℚ) (hq : 0 ≤ q) (ht : terminatesB q = true) :
    ∃ ds, fracDigitsAux csvFuel (q.num.toNat % q.den) q.den = some ds := by
  have hnum : 0 ≤ q.num := Rat.num_nonneg.2 hq
  have habs : q.num.natAbs = q.num.toNat := by omega
  rw [terminatesB, habs] at ht
  exact Option.isSome_iff_exists.1 ht

theorem cast_toNat_div_den (q : ℚ) (hq : 0 ≤ q) :
    ((q.num.toNat : ℚ)) / (q.den : ℚ) = q := by
  have hnum : 0 ≤ q.num := Rat.num_nonneg.2 hq
  have h1 : ((q.num.toNat : ℕ) : ℤ) = q.num := Int.toNat_of_nonneg hnum
  have h2 : ((q.num.toNat : ℕ) : ℚ) = ((q.num : ℤ) : ℚ) := by exact_mod_cast congrArg Int.cast h1
  rw [h2, Rat.num_div_den]

theorem parseRatNN_ratStrNN (q : ℚ) (hq : 0 ≤ q) (ht : terminatesB q = true) :
    parseRatNN (ratStrNN q).data = some q := by
  obtain ⟨ds, hfd⟩ := terminates_toNat q hq ht
  have hden : q.den ≠ 0 := q.den_nz
  have hdpos : 0 < q.den := q.den_pos
  have hdenQ : (q.den : ℚ) ≠ 0 := Nat.cast_ne_zero.2 hden
  have hsplit : q.den * (q.num.toNat / q.den) + q.num.toNat % q.den = q.num.toNat :=
    Nat.div_add_mod q.num.toNat q.den
  have hfrac : fracVal ds = ((q.num.toNat % q.den : ℕ) : ℚ) / q.den :=
    fracDigitsAux_val _ _ _ _ hden hfd
  have hipdig := natStr_all_digits (q.num.toNat / q.den)
  have hipne := natStr_ne_nil (q.num.toNat / q.den)
  have hipempty : (natStr (q.num.toNat / q.den)).data.isEmpty = false := by
    cases hc : (natStr (q.num.toNat / q.den)).data with
    | nil => exact absurd hc hipne
    | cons a l => rfl
  have hipall : (natStr (q.num.toNat / q.den)).data.all isDigitCh = true :=
    List.all_eq_true.2 hipdig
  cases ds with
  | nil =>
      have hr0 : q.num.toNat % q.den = 0 := by
        have h0 : ((q.num.toNat % q.den : ℕ) : ℚ) / q.den = 0 := by
          rw [← hfrac]
          rfl
        rw [div_eq_zero_iff] at h0
        rcases h0 with h0 | h0
        · exact_mod_cast h0
        · exact absurd h0 hdenQ
      have hval : ((q.num.toNat / q.den : ℕ) : ℚ) = q := by
        have h1 : q.den * (q.num.toNat / q.den) = q.num.toNat := by omega
        have hmul : (q.den : ℚ) * ((q.num.toNat / q.den : ℕ) : ℚ) = (q.num.toNat : ℚ) := by
          exact_mod_cast congrArg (fun k : ℕ => (k : ℚ)) h1
        calc ((q.num.toNat / q.den : ℕ) : ℚ)
            = ((q.den : ℚ) * ((q.num.toNat / q.den : ℕ) : ℚ)) / (q.den : ℚ) := by
              rw [mul_comm, mul_div_assoc, div_self hdenQ, mul_one]
          _ = (q.num.toNat : ℚ) / (q.den : ℚ) := by rw [hmul]
          _ = q := cast_toNat_div_den q hq
      simp only [ratStrNN, hfd]
      rw [parseRatNN]
      rw [breakAtChar_none '.' _ (digits_no_special _ hipdig).2.2.2.1]
      simp [hipempty, hipall, parseNatChars_natStr, hval]
  | cons d0 ds' =>
      have hlt10 := fracDigitsAux_lt10 csvFuel (q.num.toNat % q.den) q.den (d0 :: ds')
        hdpos (Nat.mod_lt _ hdpos) hfd
      have hfpall : ((d0 :: ds').map digitChar).all isDigitCh = true := by
        apply List.all_eq_true.2
        intro c hc
        rcases List.mem_map.1 hc with ⟨d, hd, rfl⟩
        exact isDigitCh_digitChar d (hlt10 d hd)
      have hmapmap : ((d0 :: ds').map digitChar).map charDigit = d0 :: ds' := by
        rw [List.map_map]
        have hcongr : ∀ d ∈ d0 :: ds', (charDigit ∘ digitChar) d = id d := by
          intro d hd
          exact charDigit_digitChar d (hlt10 d hd)
        rw [List.map_congr_left hcongr, List.map_id]
      have hval : ((q.num.toNat / q.den : ℕ) : ℚ) + fracVal (d0 :: ds') = q := by
        rw [hfrac]
        have hc := congrArg (fun k : ℕ => (k : ℚ)) hsplit
        push_cast at hc
        calc ((q.num.toNat / q.den : ℕ) : ℚ) + ((q.num.toNat % q.den : ℕ) : ℚ) / (q.den : ℚ)
            = ((q.den : ℚ) * ((q.num.toNat / q.den : ℕ) : ℚ)
                + ((q.num.toNat % q.den : ℕ) : ℚ)) / (q.den : ℚ) := by
              rw [add_div, mul_comm, mul_div_assoc, div_self hdenQ, mul_one]
          _ = (q.num.toNat : ℚ) / (q.den : ℚ) := by rw [hc]
          _ = q := cast_toNat_div_den q hq
      simp only [ratStrNN, hfd]
      rw [string_data_append, string_data_append]
      have hdot : ("." : String).data = ['.'] := rfl
      have hfpChars : (String.mk ((d0 :: ds').map digitChar)).data
          = (d0 :: ds').map digitChar := rfl
      rw [hdot, hfpChars, List.append_assoc, List.singleton_append]
      rw [parseRatNN]
      rw [breakAtChar_append '.' _ _ (digits_no_special _ hipdig).2.2.2.1]
      have hfp1 : isDigitCh (digitChar d0) = true :=
        isDigitCh_digitChar d0 (hlt10 d0 (by simp))
      have hfp2 : ∀ a ∈ ds', isDigitCh (digitChar a) = true := fun a ha =>
        isDigitCh_digitChar a (hlt10 a (by simp [ha]))
      have hval' : ((q.num.toNat / q.den : ℕ) : ℚ)
          + fracVal (charDigit (digitChar d0) :: List.map (charDigit ∘ digitChar) ds') = q := by
        have e0 : charDigit (digitChar d0) = d0 :=
          charDigit_digitChar d0 (hlt10 d0 (by simp))
        have e1 : List.map (charDigit ∘ digitChar) ds' = ds' := by
          have hall : ∀ d ∈ ds', (charDigit ∘ digitChar) d = id d := fun d hd =>
            charDigit_digitChar d (hlt10 d (by simp [hd]))
          rw [List.map_congr_left hall, List.map_id]
        rw [e0, e1]
        exact hval
      simp [hipempty, hipall, parseNatChars_natStr]
      exact ⟨⟨hfp1, hfp2⟩, hval'⟩

/-- The characters of the amount rendering are digits, the dot or the
minus sign. -/
theorem ratStrNN_charset (q : ℚ) :
    ∀ c ∈ (ratStrNN q).data, isDigitCh c = true ∨ c = '.' := by
  cases hfd : fracDigitsAux csvFuel (q.num.toNat % q.den) q.den with
  | none =>
      simp only [ratStrNN, hfd]
      intro c hc
      exact Or.inl (natStr_all_digits _ c hc)
  | some ds =>
      cases ds with
      | nil =>
          simp only [ratStrNN, hfd]
          intro c hc
          exact Or.inl (natStr_all_digits _ c hc)
      | cons d0 ds' =>
          have hlt10 := fracDigitsAux_lt10 csvFuel (q.num.toNat % q.den) q.den (d0 :: ds')
            q.den_pos (Nat.mod_lt _ q.den_pos) hfd
          simp only [ratStrNN, hfd]
          rw [string_data_append, string_data_append]
          intro c hc
          rcases List.mem_append.1 hc with hc1 | hc2
          · rcases List.mem_append.1 hc1 with hc3 | hc4
            · exact Or.inl (natStr_all_digits _ c hc3)
            · rcases List.mem_singleton.1 hc4 with rfl
              exact Or.inr rfl
          · rcases List.mem_map.1 hc2 with ⟨d, hd, rfl⟩
            exact Or.inl (isDigitCh_digitChar d (hlt10 d hd))

theorem ratStr_charset (q : ℚ) :
    ∀ c ∈ (ratStr q).data, isDigitCh c = true ∨ c = '.' ∨ c = '-' := by
  rw [ratStr]
  by_cases h : q < 0
  · rw [if_pos h, string_data_append]
    intro c hc
    rcases List.mem_append.1 hc with hc1 | hc2
    · rcases List.mem_singleton.1 hc1 with rfl
      exact Or.inr (Or.inr rfl)
    · rcases ratStrNN_charset (-q) c hc2 with h1 | h1
      · exact Or.inl h1
      · exact Or.inr (Or.inl h1)
  · rw [if_neg h]
    intro c hc
    rcases ratStrNN_charset q c hc with h1 | h1
    · exact Or.inl h1
    · exact Or.inr (Or.inl h1)

theorem ratStr_no_comma (q : ℚ) : ',' ∉ (ratStr q).data := by
  intro hm
  rcases ratStr_charset q ',' hm with h | h | h
  · exact (isDigitCh_ne _ h).1 rfl
  · cases h
  · cases h

theorem ratStr_no_newline (q : ℚ) : '\n' ∉ (ratStr q).data := by
  intro hm
  rcases ratStr_charset q '\n' hm with h | h | h
  · exact (isDigitCh_ne _ h).2.2.1 rfl
  · cases h
  · cases h

/-- The full round trip of the amount rendering. -/
theorem parseRatChars_ratStr (q : ℚ) (ht : terminatesB q = true) :
    parseRatChars (ratStr q).data = some q := by
  rw [ratStr]
  by_cases h : q < 0
  · rw [if_pos h, string_data_append]
    have hm : ("-" : String).data = ['-'] := rfl
    rw [hm, List.singleton_append, parseRatChars]
    rw [if_pos rfl]
    have htneg : terminatesB (-q) = true := by
      rw [terminatesB, Rat.num_neg_eq_neg_num, Rat.den_neg_eq_den, Int.natAbs_neg]
      rw [terminatesB] at ht
      exact ht
    rw [parseRatNN_ratStrNN (-q) (by linarith) htneg]
    simp
  · rw [if_neg h]
    have hq : 0 ≤ q := not_lt.1 h
    have hrt := parseRatNN_ratStrNN q hq ht
    cases hc : (ratStrNN q).data with
    | nil =>
        rw [hc] at hrt
        rw [parseRatNN] at hrt
        simp [breakAtChar] at hrt
    | cons c rest =>
        rw [parseRatChars]
        have hcex : c ∈ (ratStrNN q).data := by rw [hc]; simp
        have hcne : ¬ c = '-' := by
          rcases ratStrNN_charset q c hcex with h1 | h1
          · exact (isDigitCh_ne _ h1).2.2.2.2
          · subst h1
            decide
        rw [if_neg hcne]
        rw [← hc]
        exact hrt

/-! #### Rows and the whole CSV text -/

theorem parseRow_rowChars (t : CliTx)
    (hq : '"' ∉ t.description.data) (hterm : terminatesB t.amount = true) :
    parseRow (rowChars t) = some (t.description, t.amount, t.type) := by
  have hdateComma : ',' ∉ (dateStr t.primeId).data :=
    (digits_no_special _ (natStr_all_digits _)).1
  have h1 : breakAtChar ',' (rowChars t)
      = some ((dateStr t.primeId).data,
          '"' :: (t.description.data ++
            ('"' :: (',' :: ((ratStr t.amount).data ++ (',' :: t.type.data)))))) := by
    rw [rowChars]
    exact breakAtChar_append ',' _ _ hdateComma
  have h2 : breakAtChar '"' (t.description.data ++
        ('"' :: (',' :: ((ratStr t.amount).data ++ (',' :: t.type.data)))))
      = some (t.description.data,
          ',' :: ((ratStr t.amount).data ++ (',' :: t.type.data))) :=
    breakAtChar_append '"' _ _ hq
  have h3 : breakAtChar ',' ((ratStr t.amount).data ++ (',' :: t.type.data))
      = some ((ratStr t.amount).data, t.type.data) :=
    breakAtChar_append ',' _ _ (ratStr_no_comma t.amount)
  have h4 := parseRatChars_ratStr t.amount hterm
  simp only [parseRow, h1, h2, h3, h4, string_mk_data, if_pos rfl]
  simp

theorem rowChars_no_newline (t : CliTx) (hd : '\n' ∉ t.description.data)
    (hty : '\n' ∉ t.type.data) : '\n' ∉ rowChars t := by
  intro hm
  rw [rowChars] at hm
  rcases List.mem_append.1 hm with h | h
  · exact (digits_no_special _ (natStr_all_digits _)).2.2.1 h
  rcases List.mem_cons.1 h with h1 | h
  · exact absurd h1 (by decide)
  rcases List.mem_cons.1 h with h1 | h
  · exact absurd h1 (by decide)
  rcases List.mem_append.1 h with h1 | h
  · exact hd h1
  rcases List.mem_cons.1 h with h1 | h
  · exact absurd h1 (by decide)
  rcases List.mem_cons.1 h with h1 | h
  · exact absurd h1 (by decide)
  rcases List.mem_append.1 h with h1 | h
  · exact ratStr_no_newline t.amount h1
  rcases List.mem_cons.1 h with h1 | h
  · exact absurd h1 (by decide)
  · exact hty h

theorem splitChar_joinRows (ts : List CliTx) (hne : ts ≠ [])
    (h : ∀ t ∈ ts, '\n' ∉ rowChars t) :
    splitChar '\n' (joinRows ts) = ts.map rowChars := by
  induction ts with
  | nil => exact absurd rfl hne
  | cons t rest ih =>
      cases rest with
      | nil =>
          rw [joinRows, splitChar_not_mem '\n' _ (h t (by simp))]
          rfl
      | cons t2 rest2 =>
          rw [joinRows, splitChar_append '\n' _ _ (h t (by simp))]
          · rw [ih (List.cons_ne_nil t2 rest2) (fun x hx => h x (by simp [hx]))]
            rfl
          · exact fun hx => List.cons_ne_nil t2 rest2 hx

theorem parseRows_map (ts : List CliTx)
    (h : ∀ t ∈ ts, parseRow (rowChars t) = some (t.description, t.amount, t.type)) :
    parseRows (ts.map rowChars)
      = some (ts.map (fun t => (t.description, t.amount, t.type))) := by
  induction ts with
  | nil => rfl
  | cons t rest ih =>
      simp only [List.map_cons, parseRows, h t (by simp),
        ih (fun x hx => h x (by simp [hx]))]

/-! #### Substring matching -/

theorem isPrefixSeq_iff {α : Type} [DecidableEq α] (l₁ l₂ : List α) :
    isPrefixSeq l₁ l₂ = true ↔ l₁ <+: l₂ := by
  induction l₁ generalizing l₂ with
  | nil => simp [isPrefixSeq]
  | cons a as ih =>
      cases l₂ with
      | nil =>
          simp only [isPrefixSeq, Bool.false_eq_true, false_iff]
          intro hpre
          exact List.cons_ne_nil a as (List.prefix_nil.1 hpre)
      | cons b bs =>
          simp only [isPrefixSeq, List.cons_prefix_cons]
          by_cases h : a = b
          · rw [if_pos h, ih]
            simp [h]
          · rw [if_neg h]
            simp [h]

theorem isSubSeq_iff {α : Type} [DecidableEq α] (n hay : List α) :
    isSubSeq n hay = true ↔ n <:+: hay := by
  induction hay with
  | nil =>
      rw [isSubSeq, isPrefixSeq_iff]
      simp [List.infix_nil, List.prefix_nil]
  | cons b bs ih =>
      rw [isSubSeq, Bool.or_eq_true, isPrefixSeq_iff, ih, List.infix_cons_iff]

/-! #### The recent-N slice -/

theorem recent_none (ts : List ServerTx) :
    recentTransactions ts none = ts.drop (ts.length - 10) := by
  simp only [recentTransactions, jsSliceFrom]
  rw [if_pos (by norm_num : (-10 : ℤ) < 0)]
  congr 1
  omega

theorem recent_zero (ts : List ServerTx) :
    recentTransactions ts (some 0) = ts.drop (ts.length - 10) := by
  simp only [recentTransactions, eq_self_iff_true, if_true, jsSliceFrom]
  rw [if_pos (by norm_num : (-10 : ℤ) < 0)]
  congr 1
  omega

theorem recent_pos (ts : List ServerTx) (n : ℤ) (hn : 0 < n) :
    recentTransactions ts (some n) = ts.drop (ts.length - n.toNat) := by
  simp only [recentTransactions, jsSliceFrom]
  rw [if_neg (by omega : ¬ n = 0), if_pos (by omega : -n < 0)]
  congr 1
  omega

theorem recent_neg (ts : List ServerTx) (n : ℤ) (hn : n < 0) :
    recentTransactions ts (some n) = ts.drop (-n).toNat := by
  simp only [recentTransactions, jsSliceFrom]
  rw [if_neg (by omega : ¬ n = 0), if_neg (by omega : ¬ -n < 0)]
  by_cases h : (-n) ≤ (ts.length : ℤ)
  · congr 1
    omega
  · rw [List.drop_eq_nil_of_le, List.drop_eq_nil_of_le] <;> omega

/-! #### Ids along an operation sequence -/

theorem map_listModify_of_preserve {α β : Type} (f : α → α) (g : α → β)
    (hp : ∀ x, g (f x) = g x) :
    ∀ (i : ℕ) (l : List α), (listModify f i l).map g = l.map g := by
  intro i l
  induction l generalizing i with
  | nil => cases i <;> rfl
  | cons x xs ih =>
      cases i with
      | zero => simp [listModify, hp]
      | succ n => simp [listModify, ih n]

theorem txIds_update (ts : List ServerTx) (idStr : String) (u : UpdReq) :
    txIds ((updateTransactionServer ts idStr u).2) = txIds ts := by
  rw [updateTransactionServer]
  cases hfind : findIdxJs (fun t => t.id == idStr) ts with
  | none => rfl
  | some i =>
      show txIds (listModify (fun t => mergeTx t u) i ts) = txIds ts
      rw [txIds, txIds]
      exact map_listModify_of_preserve (fun t => mergeTx t u) (fun t => t.id)
        (fun x => rfl) i ts

theorem txIds_del_sublist (ts : List ServerTx) (idStr : String) :
    (txIds ((deleteTransactionServer ts idStr).1)).Sublist (txIds ts) := by
  rw [deleteTransactionServer]
  cases hfind : findIdxJs (fun t => t.id == idStr) ts with
  | none => exact List.Sublist.refl _
  | some i =>
      show (txIds (ts.eraseIdx i)).Sublist (txIds ts)
      exact (List.eraseIdx_sublist ts i).map _

theorem mem_foldl_ids (l : List Op) :
    ∀ (s : List ServerTx) (x : String), x ∈ txIds (List.foldl stepOp s l) →
      x ∈ txIds s ∨ x ∈ (addTimes l).map natStr := by
  induction l with
  | nil =>
      intro s x hx
      exact Or.inl hx
  | cons op rest ih =>
      intro s x hx
      rw [List.foldl_cons] at hx
      rcases ih (stepOp s op) x hx with hs | hrest
      · cases op with
        | add d a ty now =>
            rw [stepOp, addTransactionServer] at hs
            rw [txIds, List.map_append] at hs
            rcases List.mem_append.1 hs with h1 | h2
            · exact Or.inl h1
            · rcases List.mem_singleton.1 h2 with rfl
              refine Or.inr ?_
              simp [addTimes]
        | update idStr u =>
            rw [stepOp, txIds_update] at hs
            exact Or.inl hs
        | del idStr =>
            rw [stepOp] at hs
            exact Or.inl ((txIds_del_sublist s idStr).subset hs)
      · refine Or.inr ?_
        rcases List.mem_map.1 hrest with ⟨n, hn, rfl⟩
        refine List.mem_map.2 ⟨n, ?_, rfl⟩
        cases op <;> simp [addTimes] at hn ⊢ <;> simp [hn]

theorem ids_from_times (ops : List Op) (hmono : List.Pairwise (· < ·) (addTimes ops)) :
    (txIds (applyOps ops)).Nodup ∧
      ∀ x ∈ txIds (applyOps ops), ∃ n ∈ addTimes ops, x = natStr n := by
  induction ops using List.reverseRecOn with
  | nil => exact ⟨List.nodup_nil, by intro x hx; cases hx⟩
  | append_singleton l op ih =>
      have htimes : addTimes (l ++ [op]) = addTimes l ++ addTimes [op] :=
        List.filterMap_append l [op] _
      rw [htimes] at hmono
      rcases List.pairwise_append.1 hmono with ⟨hm1, _, hcross⟩
      rcases ih hm1 with ⟨hnodup, hmem⟩
      have happly : applyOps (l ++ [op]) = stepOp (applyOps l) op := by
        rw [applyOps, List.foldl_append]
        rfl
      cases op with
      | add d a ty now =>
          have hnowmem : now ∈ addTimes (l ++ [Op.add d a ty now]) := by
            rw [htimes]
            simp [addTimes]
          constructor
          · rw [happly]
            show (txIds (applyOps l ++ [⟨natStr now, d, a, ty, now⟩])).Nodup
            rw [txIds, List.map_append]
            refine List.nodup_append.2 ⟨hnodup, List.nodup_singleton _, ?_⟩
            intro x hx hx2
            rcases List.mem_singleton.1 hx2 with rfl
            rcases hmem _ hx with ⟨n, hn, hne⟩
            have hlt : n < now := hcross n hn now (by simp [addTimes])
            exact absurd (natStr_injective n now hne.symm) (by omega)
          · intro x hx
            rw [happly] at hx
            rw [show stepOp (applyOps l) (Op.add d a ty now)
                = applyOps l ++ [⟨natStr now, d, a, ty, now⟩] from rfl] at hx
            rw [txIds, List.map_append] at hx
            rcases List.mem_append.1 hx with h1 | h2
            · rcases hmem x h1 with ⟨n, hn, rfl⟩
              exact ⟨n, by rw [htimes]; exact List.mem_append.2 (Or.inl hn), rfl⟩
            · rcases List.mem_singleton.1 h2 with rfl
              exact ⟨now, hnowmem, rfl⟩
      | update idStr u =>
          rw [happly]
          rw [show stepOp (applyOps l) (Op.update idStr u)
              = (updateTransactionServer (applyOps l) idStr u).2 from rfl]
          rw [txIds_update]
          refine ⟨hnodup, ?_⟩
          intro x hx
          rcases hmem x hx with ⟨n, hn, rfl⟩
          exact ⟨n, by rw [htimes]; exact List.mem_append.2 (Or.inl hn), rfl⟩
      | del idStr =>
          rw [happly]
          rw [show stepOp (applyOps l) (Op.del idStr)
              = (deleteTransactionServer (applyOps l) idStr).1 from rfl]
          refine ⟨(txIds_del_sublist (applyOps l) idStr).nodup hnodup, ?_⟩
          intro x hx
          rcases hmem x ((txIds_del_sublist (applyOps l) idStr).subset hx)
            with ⟨n, hn, rfl⟩
          exact ⟨n, by rw [htimes]; exact List.mem_append.2 (Or.inl hn), rfl⟩

theorem addTimes_take_pairwise (ops : List Op) (k : ℕ)
    (hmono : List.Pairwise (· < ·) (addTimes ops)) :
    List.Pairwise (· < ·) (addTimes (ops.take k)) :=
  List.Pairwise.sublist ((List.take_sublist k ops).filterMap _) hmono

theorem addTimes_take_subset (ops : List Op) (i j : ℕ) (h : i ≤ j) :
    ∀ n ∈ addTimes (ops.take i), n ∈ addTimes (ops.take j) :=
  fun _ hn => ((List.take_sublist_take_left ops h).filterMap _).subset hn

/-! ## The claims -/

/-- Claim C1: for every sequence of transactions whose types are all
income or expense, the balance computed by the balance fold (the CLI
calculateBalance and the /api/balance accumulation) equals the income
total minus the expense total computed by the totals filters, the
figures reported as totalIncome/totalExpense/balance by the summary
endpoint. -/
theorem balance_eq_income_sub_expense (ts : List ServerTx) (us : List CliTx)
    (hts : ∀ t ∈ ts, t.type = "income" ∨ t.type = "expense")
    (hus : ∀ u ∈ us, u.type = "income" ∨ u.type = "expense") :
    serverBalance ts = (summary ts).totalIncome - (summary ts).totalExpense ∧
    (summary ts).balance = (summary ts).totalIncome - (summary ts).totalExpense ∧
    calculateBalance us = cliIncome us - cliExpense us := by
  refine ⟨?_, rfl, calculateBalance_eq_totals us hus⟩
  exact serverBalance_eq_totals ts hts

/-- Witness for C1 at the spec scenario: Salary 1000 income then
Rent 400 expense (on both stores). -/
theorem balance_eq_income_sub_expense_witness :
    serverBalance [⟨"1", "Salary", 1000, "income", 0⟩, ⟨"2", "Rent", 400, "expense", 0⟩]
        = (summary [⟨"1", "Salary", 1000, "income", 0⟩, ⟨"2", "Rent", 400, "expense", 0⟩]).totalIncome
          - (summary [⟨"1", "Salary", 1000, "income", 0⟩, ⟨"2", "Rent", 400, "expense", 0⟩]).totalExpense ∧
    calculateBalance [⟨1, "Salary", 1000, "income"⟩, ⟨2, "Rent", 400, "expense"⟩]
        = cliIncome [⟨1, "Salary", 1000, "income"⟩, ⟨2, "Rent", 400, "expense"⟩]
          - cliExpense [⟨1, "Salary", 1000, "income"⟩, ⟨2, "Rent", 400, "expense"⟩] := by
  have h := balance_eq_income_sub_expense
    [⟨"1", "Salary", 1000, "income", 0⟩, ⟨"2", "Rent", 400, "expense", 0⟩]
    [⟨1, "Salary", 1000, "income"⟩, ⟨2, "Rent", 400, "expense"⟩]
    (by decide) (by decide)
  exact ⟨h.1, h.2.2⟩

/-- Counterexample to claim C2 as stated: the spec scenario
update(id, amount := -5) does not fail with a validation error on the
server — the PUT handler validates nothing, responds 200 with the
merged record, and the stored record now carries the negative
amount. -/
theorem update_negative_amount_accepted :
    updateTransactionServer [⟨"1", "Rent", 10, "expense", 0⟩] "1" ⟨none, some (-5), none⟩
      = (.ok (some ⟨"1", "Rent", -5, "expense", 0⟩), [⟨"1", "Rent", -5, "expense", 0⟩]) := by
  decide

/-- Claim C2 as amended: the CLI add operation rejects a NaN, zero or
negative amount and leaves the snapshot untouched (nothing is loaded
or saved), but the server's update endpoint performs no amount
validation — whatever amount the body supplies, including zero or a
negative value, is merged into the stored record. -/
theorem cli_add_validates_server_update_does_not :
    (∀ (ty d : String) (a : Option ℚ) (now : ℕ) (ts : List CliTx),
        (a = none ∨ ∃ q, a = some q ∧ q ≤ 0) →
        addTransactionCli ty d a now ts = .invalidAmount) ∧
    (∀ (ts : List ServerTx) (idStr : String) (u : UpdReq) (q : ℚ) (i : ℕ),
        u.amount = some q →
        findIdxJs (fun t => t.id == idStr) ts = some i →
        ∃ t, ts.get? i = some t ∧
          (updateTransactionServer ts idStr u).2.get? i = some (mergeTx t u) ∧
          (mergeTx t u).amount = q) := by
  constructor
  · rintro ty d a now ts (rfl | ⟨q, rfl, hq⟩)
    · rfl
    · simp [addTransactionCli, hq]
  · intro ts idStr u q i hq hfind
    rcases findIdxJs_eq_some _ _ _ hfind with ⟨t, ht, _⟩
    refine ⟨t, ht, ?_, ?_⟩
    · simp only [updateTransactionServer, hfind]
      rw [listModify_get?_eq, ht]
      rfl
    · simp [mergeTx, hq]

/-- Witness for the amended C2: a zero amount is rejected by the CLI
add, and an update carrying amount -5 is stored verbatim by the
server. -/
theorem cli_add_validates_server_update_does_not_witness :
    addTransactionCli "income" "Salary" (some 0) 7 [] = .invalidAmount ∧
    (∃ t, [(⟨"1", "Rent", 10, "expense", 0⟩ : ServerTx)].get? 0 = some t ∧
      (updateTransactionServer [⟨"1", "Rent", 10, "expense", 0⟩] "1"
          ⟨none, some (-5), none⟩).2.get? 0 = some (mergeTx t ⟨none, some (-5), none⟩) ∧
      (mergeTx t ⟨none, some (-5), none⟩).amount = -5) := by
  refine ⟨?_, ?_⟩
  · exact cli_add_validates_server_update_does_not.1 "income" "Salary" (some 0) 7 []
      (Or.inr ⟨0, rfl, le_refl 0⟩)
  · exact cli_add_validates_server_update_does_not.2
      [⟨"1", "Rent", 10, "expense", 0⟩] "1" ⟨none, some (-5), none⟩ (-5) 0 rfl (by decide)

/-- Counterexample to claim C3 as stated: deleting an existing id
removes the record but the endpoint responds 204 with an empty body —
the removed record is not returned to the caller. -/
theorem delete_returns_no_body :
    deleteTransactionServer [⟨"1", "Coffee", 10, "expense", 0⟩] "1"
      = ([], ⟨204, none⟩) := by
  decide

/-- Claim C3 as amended: deleteById on an id that does not occur
responds 404 and leaves the snapshot unchanged; on an id that occurs
it removes exactly the first matching record (the snapshot shrinks by
one) and responds 204 with no body, so the removed record is not
returned. -/
theorem delete_by_id_spec (ts : List ServerTx) (idStr : String) :
    ((∀ t ∈ ts, t.id ≠ idStr) →
      deleteTransactionServer ts idStr = (ts, ⟨404, none⟩)) ∧
    ((∃ t ∈ ts, t.id = idStr) →
      ∃ i t, ts.get? i = some t ∧ t.id = idStr ∧
        deleteTransactionServer ts idStr = (ts.eraseIdx i, ⟨204, none⟩) ∧
        (ts.eraseIdx i).length + 1 = ts.length) := by
  constructor
  · intro h
    have hnone : findIdxJs (fun t => t.id == idStr) ts = none := by
      rw [findIdxJs_eq_none_iff]
      intro x hx
      simp [h x hx]
    simp [deleteTransactionServer, hnone]
  · rintro ⟨t, ht, hid⟩
    rcases findIdxJs_isSome_of_mem (fun t => t.id == idStr) ts t ht (by simp [hid])
      with ⟨i, hfind⟩
    rcases findIdxJs_eq_some _ _ _ hfind with ⟨t', ht', hp'⟩
    refine ⟨i, t', ht', by simpa using hp', ?_, ?_⟩
    · simp [deleteTransactionServer, hfind]
    · have hlt : i < ts.length := by
        rcases List.get?_eq_some.1 ht' with ⟨hl, _⟩
        exact hl
      exact List.length_eraseIdx_add_one hlt

/-- Witness for the amended C3: deleting a missing id answers 404 and
changes nothing; deleting an existing id removes that one record and
answers a bodyless 204. -/
theorem delete_by_id_spec_witness :
    deleteTransactionServer [⟨"1", "Coffee", 10, "expense", 0⟩] "9"
        = ([⟨"1", "Coffee", 10, "expense", 0⟩], ⟨404, none⟩) ∧
    (∃ i t, [(⟨"1", "Coffee", 10, "expense", 0⟩ : ServerTx)].get? i = some t ∧
      t.id = "1" ∧
      deleteTransactionServer [⟨"1", "Coffee", 10, "expense", 0⟩] "1"
        = ([⟨"1", "Coffee", 10, "expense", 0⟩].eraseIdx i, ⟨204, none⟩) ∧
      ([(⟨"1", "Coffee", 10, "expense", 0⟩ : ServerTx)].eraseIdx i).length + 1 = 1) := by
  refine ⟨?_, ?_⟩
  · exact (delete_by_id_spec [⟨"1", "Coffee", 10, "expense", 0⟩] "9").1 (by decide)
  · exact (delete_by_id_spec [⟨"1", "Coffee", 10, "expense", 0⟩] "1").2
      ⟨⟨"1", "Coffee", 10, "expense", 0⟩, by simp, rfl⟩

/-- Claim C4: updating an existing id merges exactly the supplied
description/amount/type fields into that record, never alters its id
or createdAt, responds with the merged record, and leaves every other
record untouched. -/
theorem update_merges_only_supplied_fields (ts : List ServerTx) (idStr : String)
    (u : UpdReq) (i : ℕ)
    (hfind : findIdxJs (fun t => t.id == idStr) ts = some i) :
    ∃ t, ts.get? i = some t ∧
      (updateTransactionServer ts idStr u).2.get? i = some (mergeTx t u) ∧
      (mergeTx t u).description = u.description.getD t.description ∧
      (mergeTx t u).amount = u.amount.getD t.amount ∧
      (mergeTx t u).type = u.type.getD t.type ∧
      (mergeTx t u).id = t.id ∧
      (mergeTx t u).createdAt = t.createdAt ∧
      (updateTransactionServer ts idStr u).1 = .ok (some (mergeTx t u)) ∧
      (∀ j, j ≠ i → (updateTransactionServer ts idStr u).2.get? j = ts.get? j) := by
  rcases findIdxJs_eq_some _ _ _ hfind with ⟨t, ht, _⟩
  have hset : (updateTransactionServer ts idStr u).2.get? i = some (mergeTx t u) := by
    simp only [updateTransactionServer, hfind]
    rw [listModify_get?_eq, ht]
    rfl
  refine ⟨t, ht, hset, rfl, rfl, rfl, rfl, rfl, ?_, ?_⟩
  · simp only [updateTransactionServer, hfind]
    rw [listModify_get?_eq, ht]
    rfl
  · intro j hj
    simp only [updateTransactionServer, hfind]
    exact listModify_get?_ne _ i j ts hj

/-- Witness for C4: updating id 2 of a two-record snapshot with a
partial body (only amount) rewrites only that field of that record. -/
theorem update_merges_only_supplied_fields_witness :
    ∃ t, [(⟨"1", "a", 5, "income", 3⟩ : ServerTx), ⟨"2", "b", 6, "expense", 4⟩].get? 1 = some t ∧
      (updateTransactionServer [⟨"1", "a", 5, "income", 3⟩, ⟨"2", "b", 6, "expense", 4⟩]
          "2" ⟨none, some 7, none⟩).2.get? 1 = some (mergeTx t ⟨none, some 7, none⟩) ∧
      (mergeTx t ⟨none, some 7, none⟩).description = (none : Option String).getD t.description ∧
      (mergeTx t ⟨none, some 7, none⟩).amount = (some (7:ℚ)).getD t.amount ∧
      (mergeTx t ⟨none, some 7, none⟩).type = (none : Option String).getD t.type ∧
      (mergeTx t ⟨none, some 7, none⟩).id = t.id ∧
      (mergeTx t ⟨none, some 7, none⟩).createdAt = t.createdAt ∧
      (updateTransactionServer [⟨"1", "a", 5, "income", 3⟩, ⟨"2", "b", 6, "expense", 4⟩]
          "2" ⟨none, some 7, none⟩).1 = .ok (some (mergeTx t ⟨none, some 7, none⟩)) ∧
      (∀ j, j ≠ 1 →
        (updateTransactionServer [⟨"1", "a", 5, "income", 3⟩, ⟨"2", "b", 6, "expense", 4⟩]
            "2" ⟨none, some 7, none⟩).2.get? j
          = [(⟨"1", "a", 5, "income", 3⟩ : ServerTx), ⟨"2", "b", 6, "expense", 4⟩].get? j) :=
  update_merges_only_supplied_fields
    [⟨"1", "a", 5, "income", 3⟩, ⟨"2", "b", 6, "expense", 4⟩] "2" ⟨none, some 7, none⟩ 1
    (by decide)

/-- Counterexample to claim C9 as stated: the spec scenario
add(description two spaces, amount 10, income) does not fail — the CLI
validates only the amount, trims the description to the empty string
and appends the record. -/
theorem blank_description_accepted :
    addTransactionCli "income" "  " (some 10) 0 []
      = .saved [⟨0, "", 10, "income"⟩] := by
  decide

/-- Claim C9 as amended: an add request whose description is empty
after trimming succeeds whenever the amount is a positive number — the
description is never validated; the transaction is appended with the
trimmed (possibly empty) description. -/
theorem add_never_validates_description (ty d : String) (a : ℚ) (now : ℕ)
    (ts : List CliTx) (ha : 0 < a) :
    addTransactionCli ty d (some a) now ts = .saved (ts ++ [⟨now, jsTrim d, a, ty⟩]) := by
  simp [addTransactionCli, not_le.2 ha]

/-- Witness for the amended C9: a whitespace-only description is
accepted and stored as the empty string. -/
theorem add_never_validates_description_witness :
    addTransactionCli "income" "   " (some 10) 5 [] = .saved [⟨5, "", 10, "income"⟩] := by
  have h := add_never_validates_description "income" "   " 10 5 [] (by norm_num)
  rw [h]
  decide

/-- Counterexample to claim C6 as stated: a negative limit does not
yield an empty sequence — `parseInt` gives -1, `-1 || 10` keeps -1,
and `slice(-(-1)) = slice(1)` drops the first transaction and returns
the rest. -/
theorem recent_negative_limit_not_empty :
    recentTransactions [⟨"1", "a", 1, "income", 0⟩, ⟨"2", "b", 2, "income", 0⟩]
        (some (-1))
      = [⟨"2", "b", 2, "income", 0⟩] := by
  decide

/-- Claim C6 as amended: recent(t, n) defaults to the last 10
transactions when the limit is unspecified or non-numeric, and also
when it parses to 0 (0 is falsy in `limit || 10`); for n > 0 it
returns the last n transactions in original order — in particular all
of t whenever n is at least the length of t; for n < 0 it is not
empty but instead drops the first |n| transactions and returns the
remainder. -/
theorem recent_limit_spec (ts : List ServerTx) (q : Option ℤ) :
    ((q = none ∨ q = some 0) → recentTransactions ts q = ts.drop (ts.length - 10)) ∧
    (∀ n : ℤ, q = some n → 0 < n →
      recentTransactions ts q = ts.drop (ts.length - n.toNat)) ∧
    (∀ n : ℤ, q = some n → (ts.length : ℤ) ≤ n → recentTransactions ts q = ts) ∧
    (∀ n : ℤ, q = some n → n < 0 → recentTransactions ts q = ts.drop (-n).toNat) := by
  refine ⟨?_, ?_, ?_, ?_⟩
  · rintro (rfl | rfl)
    · exact recent_none ts
    · exact recent_zero ts
  · rintro n rfl hn
    exact recent_pos ts n hn
  · rintro n rfl hle
    by_cases h0 : n = 0
    · subst h0
      have : ts = [] := by
        cases ts with
        | nil => rfl
        | cons a l =>
            exfalso
            simp only [List.length_cons] at hle
            omega
      subst this
      simp [recent_zero]
    · have hn : 0 < n := by omega
      rw [recent_pos ts n hn]
      have : ts.length - n.toNat = 0 := by omega
      rw [this, List.drop_zero]
  · rintro n rfl hn
    exact recent_neg ts n hn

/-- Witness for the amended C6: no limit on a one-element store gives
the whole store (last 10); limit 5 on a two-element store gives the
whole store. -/
theorem recent_limit_spec_witness :
    recentTransactions [⟨"1", "a", 1, "income", 0⟩] none
        = [(⟨"1", "a", 1, "income", 0⟩ : ServerTx)].drop
            ([(⟨"1", "a", 1, "income", 0⟩ : ServerTx)].length - 10) ∧
    recentTransactions [⟨"1", "a", 1, "income", 0⟩, ⟨"2", "b", 2, "income", 0⟩]
        (some 5)
      = [⟨"1", "a", 1, "income", 0⟩, ⟨"2", "b", 2, "income", 0⟩] := by
  constructor
  · exact (recent_limit_spec [⟨"1", "a", 1, "income", 0⟩] none).1 (Or.inl rfl)
  · exact (recent_limit_spec
        [⟨"1", "a", 1, "income", 0⟩, ⟨"2", "b", 2, "income", 0⟩] (some 5)).2.2.1 5 rfl
      (by norm_num)

/-- Claim C7: search returns exactly the transactions whose
description contains the query as a case-insensitive substring,
preserving the original relative order (the result is a sublist);
the empty query matches everything; and a query matching nothing
gives the empty sequence rather than an error. -/
theorem search_spec (ts : List CliTx) (q : String) :
    searchTransactions ts "" = ts ∧
    (searchTransactions ts q).Sublist ts ∧
    (∀ t, t ∈ searchTransactions ts q ↔
      t ∈ ts ∧ (jsToLower q).data <:+: (jsToLower t.description).data) ∧
    ((∀ t ∈ ts, ¬ (jsToLower q).data <:+: (jsToLower t.description).data) →
      searchTransactions ts q = []) := by
  refine ⟨?_, ?_, ?_, ?_⟩
  · rw [searchTransactions]
    apply List.filter_eq_self.2
    intro t _
    rw [isSubSeq_iff]
    exact List.nil_infix
  · exact List.filter_sublist ts
  · intro t
    rw [searchTransactions, List.mem_filter, isSubSeq_iff]
  · intro hnone
    rw [searchTransactions]
    apply List.filter_eq_nil_iff.2
    intro t ht
    rw [isSubSeq_iff]
    exact hnone t ht

/-- Witness for C7: an unrelated query over a one-element store
matches nothing and returns the empty list. -/
theorem search_spec_witness :
    searchTransactions [⟨1, "Coffee Shop", 5, "expense"⟩] "salary" = [] := by
  apply (search_spec [⟨1, "Coffee Shop", 5, "expense"⟩] "salary").2.2.2
  intro t ht hinf
  have hb : isSubSeq (jsToLower "salary").data
      (jsToLower t.description).data = true := (isSubSeq_iff _ _).2 hinf
  simp only [List.mem_singleton] at ht
  subst ht
  exact absurd hb (by decide)

/-- Counterexample to claim C5 as stated: the id is
`Date.now().toString()` with no collision avoidance, so two adds in
the same millisecond receive the same id and the store holds two
transactions with id "100". -/
theorem duplicate_ids_same_millisecond :
    txIds (applyOps [.add "a" 5 "income" 100, .add "b" 3 "expense" 100])
      = ["100", "100"] ∧
    ¬ (txIds (applyOps [.add "a" 5 "income" 100, .add "b" 3 "expense" 100])).Nodup := by
  exact ⟨by decide, by decide⟩

/-- Claim C5 as amended: the add operation derives the id from the
current time with no collision-avoidance rule, so uniqueness holds
only when the clock moves: for every request sequence whose add
timestamps are strictly increasing, no snapshot reachable from the
empty ledger holds two transactions with the same id, and an id that
has disappeared from the store (deleted) never occurs again in any
later snapshot. -/
theorem ids_unique_of_increasing_times (ops : List Op)
    (hmono : List.Pairwise (· < ·) (addTimes ops)) :
    (∀ k, (txIds (applyOps (ops.take k))).Nodup) ∧
    (∀ i j k x, i ≤ j → j ≤ k →
      x ∈ txIds (applyOps (ops.take i)) →
      x ∉ txIds (applyOps (ops.take j)) →
      x ∉ txIds (applyOps (ops.take k))) := by
  constructor
  · intro k
    exact (ids_from_times _ (addTimes_take_pairwise ops k hmono)).1
  · intro i j k x hij hjk hxi hxj hxk
    have htk : ops.take k = ops.take j ++ (ops.take k).drop j := by
      have h1 : (ops.take k).take j = ops.take j := by
        rw [List.take_take, Nat.min_eq_left hjk]
      calc ops.take k = (ops.take k).take j ++ (ops.take k).drop j :=
            (List.take_append_drop j (ops.take k)).symm
        _ = ops.take j ++ (ops.take k).drop j := by rw [h1]
    have happ : applyOps (ops.take k)
        = List.foldl stepOp (applyOps (ops.take j)) ((ops.take k).drop j) := by
      have h2 := congrArg applyOps htk
      rw [h2, applyOps, applyOps, List.foldl_append]
    rw [happ] at hxk
    rcases mem_foldl_ids _ _ _ hxk with hold | hnew
    · exact hxj hold
    · rcases List.mem_map.1 hnew with ⟨m, hm, hxm⟩
      rcases (ids_from_times _ (addTimes_take_pairwise ops i hmono)).2 x hxi
        with ⟨n, hn, hxn⟩
      have hnj : n ∈ addTimes (ops.take j) := addTimes_take_subset ops i j hij n hn
      have hpk : List.Pairwise (· < ·) (addTimes (ops.take k)) :=
        addTimes_take_pairwise ops k hmono
      have hdecomp : addTimes (ops.take k)
          = addTimes (ops.take j) ++ addTimes ((ops.take k).drop j) := by
        calc addTimes (ops.take k)
            = addTimes (ops.take j ++ (ops.take k).drop j) := congrArg addTimes htk
          _ = addTimes (ops.take j) ++ addTimes ((ops.take k).drop j) :=
              List.filterMap_append _ _ _
      rw [hdecomp] at hpk
      have hlt : n < m := (List.pairwise_append.1 hpk).2.2 n hnj m hm
      have he : natStr n = natStr m := hxn.symm.trans hxm.symm
      have := natStr_injective n m he
      omega

/-- Witness for the amended C5: two adds at times 100 and 200, a
delete of id "100", and an add at time 300 — all snapshot ids stay
distinct and the deleted id "100" does not reappear. -/
theorem ids_unique_of_increasing_times_witness :
    (txIds (applyOps (exOps.take 4))).Nodup ∧
    "100" ∉ txIds (applyOps (exOps.take 4)) := by
  have h := ids_unique_of_increasing_times exOps (by decide)
  exact ⟨h.1 4, h.2 1 3 4 "100" (by omega) (by omega) (by decide) (by decide)⟩

/-- Counterexample to claim C8 as stated: a description containing a
double quote is interpolated into the quoted CSV field without
escaping, so the row for description `say "hi"` reads
`0,"say "hi"",10,income` and the parse cannot reconstruct the
description (it fails). -/
theorem csv_quote_breaks_roundtrip :
    parseCSV (toCSV [⟨0, "say \"hi\"", 10, "income"⟩]) = none := by
  decide

/-- Claim C8 as amended: for every nonempty sequence of transactions
whose descriptions contain no double quote and no newline, whose types
contain no newline, and whose amounts have terminating decimal
expansions (every actual JavaScript number does), serializing with
toCSV and parsing the text back reconstructs the description, amount
and type of every row exactly, in order; the date column is lossy to
the day and is not reconstructed. -/
theorem csv_roundtrip (ts : List CliTx) (hne : ts ≠ [])
    (hgood : ∀ t ∈ ts, '"' ∉ t.description.data ∧ '\n' ∉ t.description.data ∧
      '\n' ∉ t.type.data ∧ terminatesB t.amount = true) :
    parseCSV (toCSV ts) = some (ts.map (fun t => (t.description, t.amount, t.type))) := by
  have hrows : ∀ t ∈ ts, '\n' ∉ rowChars t := fun t ht =>
    rowChars_no_newline t (hgood t ht).2.1 (hgood t ht).2.2.1
  have hdata : (toCSV ts).data = headerChars ++ '\n' :: joinRows ts := rfl
  have hsplit : splitChar '\n' (toCSV ts).data
      = headerChars :: splitChar '\n' (joinRows ts) := by
    rw [hdata]
    exact splitChar_append '\n' _ _ (by decide)
  simp only [parseCSV, hsplit, if_pos rfl]
  rw [splitChar_joinRows ts hne hrows]
  exact parseRows_map ts (fun t ht => parseRow_rowChars t (hgood t ht).1 (hgood t ht).2.2.2)

/-- Witness for the amended C8: a two-row export (with a comma inside
one description and a fractional amount) parses back to exactly the
original descriptions, amounts and types. -/
theorem csv_roundtrip_witness :
    parseCSV (toCSV [⟨0, "Salary", 1000, "income"⟩,
        ⟨86400000, "Lunch, cafe", 25/2, "expense"⟩])
      = some [("Salary", 1000, "income"), ("Lunch, cafe", 25/2, "expense")] := by
  have hgood : ∀ t ∈ [(⟨0, "Salary", 1000, "income"⟩ : CliTx),
      ⟨86400000, "Lunch, cafe", 25/2, "expense"⟩],
      '"' ∉ t.description.data ∧ '\n' ∉ t.description.data ∧
        '\n' ∉ t.type.data ∧ terminatesB t.amount = true := by
    intro t ht
    rcases List.mem_cons.1 ht with rfl | ht2
    · exact ⟨by decide, by decide, by decide, by with_unfolding_all rfl⟩
    rcases List.mem_cons.1 ht2 with rfl | ht3
    · exact ⟨by decide, by decide, by decide, by with_unfolding_all rfl⟩
    · exact absurd ht3 (List.not_mem_nil t)
  have h := csv_roundtrip _ (by simp) hgood
  rw [h]
  with_unfolding_all rfl

/-- Claim C10: in the CLI delete flow, a non-numeric index input
(parseInt yields NaN) is not caught by the cancel test or the bounds
check (NaN comparisons are false), and splice coerces the NaN start
index to 0 — on any non-empty snapshot the first transaction is
removed. -/
theorem delete_nan_removes_first (h : CliTx) (t : List CliTx) :
    deleteTransactionCli (h :: t) none = .deleted h t := by
  simp [deleteTransactionCli, jsLtB, jsGtB]

end FinanceTracker
